import Mathlib

/-!
Shallow embedding of the netlink codec core (`netlink.go`) of the go-odp
repository, together with theorems settling the specification claims.

Modelling conventions:
* Go byte buffers (`[]byte`) are `List Nat`, each element one byte.
* Multi-byte fields are read/written little-endian, matching the native
  byte order of the platform the code targets (the Go code accesses
  header and attribute fields through struct-pointer casts into the
  buffer, i.e. native order).
* Go `int` arithmetic on buffer lengths never approaches 2^63 (buffers
  are at most a page), so it is modelled without wraparound; the one
  place where 32-bit signed overflow is observable (negating the
  embedded netlink error code) is modelled with an explicit wrap.
* Fallible Go code (returning `error`) becomes `Except`/sum-like result
  types; a Go runtime panic (slice bounds out of range, address of an
  element of an empty slice) is modelled as an explicit `goPanic`-style
  result constructor.
-/

namespace Netlink

/-- A Go `[]byte` buffer: a list of bytes (each `< 256` for well-formed data). -/
abbrev Bytes := List Nat

/-- `syscall.NLMSG_HDRLEN`: size of `NlMsghdr` (16 bytes) aligned to 4. -/
def NLMSG_HDRLEN : Nat := 16

/-- `syscall.NLMSG_ALIGNTO`. -/
def NLMSG_ALIGNTO : Nat := 4

/-- `syscall.RTA_ALIGNTO`. -/
def RTA_ALIGNTO : Nat := 4

/-- `syscall.SizeofRtAttr`: the 4-byte attribute TLV prefix (Len u16, Type u16). -/
def SizeofRtAttr : Nat := 4

/-- `syscall.NLMSG_ERROR`: the reserved error message type (2). -/
def NLMSG_ERROR : Nat := 2

/-- `func align(n int, a int) int { return (n + a - 1) & -a }` -/
def align (n a : Int) : Int := Int.land (n + a - 1) (-a)

/-- `align` restricted to naturals, as used on buffer lengths and cursor
positions (all nonnegative, far below 2^63). -/
def alignN (n a : Nat) : Nat := (align n a).toNat

/-- Bitwise AND of a natural with `-(2^k)` keeps exactly the bits above `k`,
i.e. rounds down to a multiple of `2^k`. -/
theorem ldiff_two_pow_pred (m k : Nat) :
    Nat.ldiff m (2 ^ k - 1) = m / 2 ^ k * 2 ^ k := by
  have h : m / 2 ^ k * 2 ^ k = (m >>> k) <<< k := by
    rw [Nat.shiftRight_eq_div_pow, Nat.shiftLeft_eq]
  rw [h]
  refine Nat.eq_of_testBit_eq fun i => ?_
  rw [Nat.testBit_ldiff, Nat.testBit_two_pow_sub_one, Nat.testBit_shiftLeft,
    Nat.testBit_shiftRight]
  by_cases hik : k ≤ i
  · simp [hik, Nat.not_lt.mpr hik, Nat.add_sub_cancel' hik]
  · simp [hik, Nat.lt_of_not_le hik]

/-- `Int.land` of a nonnegative integer with `-(2^k)` computed on naturals. -/
theorem land_neg_two_pow (m k : Nat) :
    Int.land (m : Int) (-((2 ^ k : Nat) : Int)) = ((m / 2 ^ k * 2 ^ k : Nat) : Int) := by
  have h1 : ((2 ^ k : Nat) : Int) = ((2 ^ k - 1 : Nat) : Int) + 1 := by
    have : (1:Nat) ≤ 2 ^ k := Nat.one_le_two_pow
    omega
  have h2 : -((2 ^ k : Nat) : Int) = Int.negSucc (2 ^ k - 1) := by
    rw [Int.negSucc_eq, h1]
  rw [h2]
  show ((Nat.ldiff m (2 ^ k - 1) : Nat) : Int) = _
  rw [ldiff_two_pow_pred]

/-- Characterization of `align` on naturals: round up to the next multiple. -/
theorem align_coe (m k : Nat) :
    align (m : Int) ((2 ^ k : Nat) : Int) = (((m + 2 ^ k - 1) / 2 ^ k * 2 ^ k : Nat) : Int) := by
  have hpos : (1:Nat) ≤ 2 ^ k := Nat.one_le_two_pow
  have h1 : (m : Int) + ((2 ^ k : Nat) : Int) - 1 = ((m + 2 ^ k - 1 : Nat) : Int) := by
    omega
  rw [align, h1, land_neg_two_pow]

/-- `alignN n (2^k) = (n + 2^k - 1) / 2^k * 2^k`. -/
theorem alignN_eq (n k : Nat) : alignN n (2 ^ k) = (n + 2 ^ k - 1) / 2 ^ k * 2 ^ k := by
  rw [alignN, align_coe, Int.toNat_natCast]

/-- The concrete instance used throughout the codec (`NLMSG_ALIGNTO` and
`RTA_ALIGNTO` are both 4). -/
theorem alignN_four (n : Nat) : alignN n 4 = (n + 3) / 4 * 4 := by
  have h := alignN_eq n 2
  norm_num at h
  exact h

/-- Rounding up is at least the original value. -/
theorem roundUp_ge (m a : Nat) (ha : 0 < a) : m ≤ (m + a - 1) / a * a := by
  have h := Nat.div_add_mod (m + a - 1) a
  have h2 : (m + a - 1) % a < a := Nat.mod_lt _ ha
  rw [Nat.mul_comm] at h
  generalize (m + a - 1) / a * a = P at h ⊢
  omega

/-- Rounding up overshoots by less than `a`. -/
theorem roundUp_sub_lt (m a : Nat) (ha : 0 < a) : (m + a - 1) / a * a - m < a := by
  have h := Nat.div_add_mod (m + a - 1) a
  rw [Nat.mul_comm] at h
  generalize (m + a - 1) / a * a = P at h ⊢
  omega

/-- Rounding up yields the smallest multiple of `a` that is `≥ m`. -/
theorem roundUp_min (m a p : Nat) (ha : 0 < a) (h : m ≤ a * p) :
    (m + a - 1) / a * a ≤ a * p := by
  have hmono : m + a - 1 ≤ a * p + (a - 1) := by omega
  have hq : (m + a - 1) / a ≤ (a * p + (a - 1)) / a := Nat.div_le_div_right hmono
  have hz : (a - 1) / a = 0 := Nat.div_eq_of_lt (by omega)
  rw [Nat.mul_add_div ha, hz, Nat.add_zero] at hq
  calc (m + a - 1) / a * a ≤ p * a := Nat.mul_le_mul_right a hq
  _ = a * p := Nat.mul_comm _ _

/-- Rounding up a multiple of `a` is the identity. -/
theorem roundUp_mul (q a : Nat) (ha : 0 < a) : (q * a + a - 1) / a * a = q * a := by
  have h1 : q * a + a - 1 = a * q + (a - 1) := by rw [Nat.mul_comm]; omega
  have hz : (a - 1) / a = 0 := Nat.div_eq_of_lt (by omega)
  rw [h1, Nat.mul_add_div ha, hz, Nat.add_zero]

/-- Byte at `pos` (reads beyond the end give 0; every theorem below keeps
the modelled reads inside the buffer, matching the Go code's in-bounds
struct-pointer accesses). -/
def byteAt (data : Bytes) (pos : Nat) : Nat := data.getD pos 0

/-- Native-order (little-endian) 16-bit read, as done by the `uint16`
struct fields accessed through pointer casts. -/
def read16 (data : Bytes) (pos : Nat) : Nat :=
  byteAt data pos + 256 * byteAt data (pos + 1)

/-- Native-order 32-bit read. -/
def read32 (data : Bytes) (pos : Nat) : Nat :=
  read16 data pos + 65536 * read16 data (pos + 2)

/-- Native-order signed 32-bit read (`NlMsgerr.Error`). -/
def readInt32 (data : Bytes) (pos : Nat) : Int :=
  let v := read32 data pos
  if v < 2 ^ 31 then (v : Int) else (v : Int) - 2 ^ 32

/-- Two's-complement negation of a 32-bit signed value, as performed by
`-nlerr.Error` on an `int32` (observable only at `-2^31`). -/
def negInt32 (c : Int) : Int := (-c + 2 ^ 31) % 2 ^ 32 - 2 ^ 31

/-- Store of a `uint16` field (little-endian). -/
def write16At (b : Bytes) (pos v : Nat) : Bytes :=
  (b.set pos (v % 256)).set (pos + 1) (v / 256 % 256)

/-- Store of a `uint32` field (little-endian). -/
def write32At (b : Bytes) (pos v : Nat) : Bytes :=
  (((b.set pos (v % 256)).set (pos + 1) (v / 256 % 256)).set
    (pos + 2) (v / 65536 % 256)).set (pos + 3) (v / 16777216 % 256)

/-- `syscall.NlMsghdr`: Len u32, Type u16, Flags u16, Seq u32, Pid u32. -/
structure NlMsghdr where
  len : Nat
  typ : Nat
  flags : Nat
  seq : Nat
  pid : Nat
deriving DecidableEq

/-- `nlMsghdrAt`: decode the header struct at `pos`. -/
def readNlMsghdr (data : Bytes) (pos : Nat) : NlMsghdr :=
  ⟨read32 data pos, read16 data (pos + 4), read16 data (pos + 6),
    read32 data (pos + 8), read32 data (pos + 12)⟩

/-- Failure kinds of `checkResponse` (one per `return` with an error). -/
inductive CheckErr where
  | truncatedHeader
  | truncatedMessage
  | pidMismatch
  | seqMismatch
  | netlinkError (errno : Int)
  | multipleMessages
  | goPanic
deriving DecidableEq

/-- `(s *NetlinkSocket) checkResponse(data []byte, expectedSeq uint32)`.
`sockPid` is `s.addr.Pid`.  The two `goPanic` outcomes model Go runtime
panics of the source: `data[NLMSG_HDRLEN:h.Len]` with `h.Len < NLMSG_HDRLEN`
(slice bounds out of range), and `&payload[0]` on an empty payload. -/
def checkResponse (sockPid : Nat) (data : Bytes) (expectedSeq : Nat) :
    Except CheckErr Unit :=
  if data.length < NLMSG_HDRLEN then .error .truncatedHeader
  else
    let h := readNlMsghdr data 0
    if data.length < h.len then .error .truncatedMessage
    else if h.pid ≠ sockPid then .error .pidMismatch
    else if h.seq ≠ expectedSeq then .error .seqMismatch
    else if h.len < NLMSG_HDRLEN then .error .goPanic
    else if h.typ = NLMSG_ERROR then
      if h.len = NLMSG_HDRLEN then .error .goPanic
      else
        let code := readInt32 data NLMSG_HDRLEN
        if code = 0 then .ok ()
        else .error (.netlinkError (negInt32 code))
    else if alignN data.length NLMSG_ALIGNTO < h.len then .error .multipleMessages
    else .ok ()

/-- `NlMsgButcher`: a cursor over a received buffer. -/
structure NlMsgButcher where
  data : Bytes
  pos : Nat
deriving DecidableEq

/-- `NewNlMsgButcher`. -/
def NewNlMsgButcher (data : Bytes) : NlMsgButcher := ⟨data, 0⟩

/-- `(nlmsg *NlMsgButcher) Align(a int)`. -/
def NlMsgButcher.Align (nlmsg : NlMsgButcher) (a : Nat) : NlMsgButcher :=
  ⟨nlmsg.data, alignN nlmsg.pos a⟩

/-- Result of `Advance` (the state records the cursor after the call). -/
inductive AdvanceResult where
  | ok (st : NlMsgButcher)
  | err (st : NlMsgButcher)
deriving DecidableEq

/-- `(nlmsg *NlMsgButcher) Advance(n uintptr)`: truncated-payload error
when the cursor would pass the end, leaving the cursor untouched. -/
def NlMsgButcher.Advance (nlmsg : NlMsgButcher) (n : Nat) : AdvanceResult :=
  let pos := nlmsg.pos + n
  if nlmsg.data.length < pos then .err nlmsg
  else .ok ⟨nlmsg.data, pos⟩

/-- Result of `TakeNlMsghdr`. -/
inductive TakeHdrResult where
  | ok (h : NlMsghdr) (st : NlMsgButcher)
  | err (st : NlMsgButcher)
deriving DecidableEq

/-- `(nlmsg *NlMsgButcher) TakeNlMsghdr(expectType uint16)`: reads the
header at buffer position 0 (not at the cursor), advances the cursor by
`NLMSG_HDRLEN`, then type-checks. -/
def NlMsgButcher.TakeNlMsghdr (nlmsg : NlMsgButcher) (expectType : Nat) :
    TakeHdrResult :=
  let h := readNlMsghdr nlmsg.data 0
  let st : NlMsgButcher := ⟨nlmsg.data, nlmsg.pos + NLMSG_HDRLEN⟩
  if h.typ ≠ expectType then .err st
  else .ok h st

/-- The Go `map[uint16][]byte`, modelled as the insertion history, most
recent insertion first; lookup finds the most recent binding. -/
abbrev Attrs := List (Nat × Bytes)

/-- `attrs[typ] = val` (map write). -/
def attrsInsert (attrs : Attrs) (t : Nat) (v : Bytes) : Attrs := (t, v) :: attrs

/-- `attrs[typ]` (map read; `none` = Go `nil`). -/
def attrsGet : Attrs → Nat → Option Bytes
  | [], _ => none
  | (t', v) :: rest, t => if t' = t then some v else attrsGet rest t

/-- Error kind of the attribute-map accessors. -/
inductive GetErr where
  | missingAttribute (t : Nat)
deriving DecidableEq

/-- `(attrs Attrs) Get(typ uint16)`: fails iff the attribute is absent
(stored values originate from Go slice expressions and are never nil). -/
def Attrs.Get (attrs : Attrs) (t : Nat) : Except GetErr Bytes :=
  match attrsGet attrs t with
  | none => .error (.missingAttribute t)
  | some val => .ok val

/-- `(attrs Attrs) GetUint16(typ uint16)`.  Note: on a wrong-length value
the source executes `return 0, err` where `err` is the nil error from the
successful `Get`, i.e. it returns value 0 with SUCCESS. -/
def Attrs.GetUint16 (attrs : Attrs) (t : Nat) : Except GetErr Nat :=
  match Attrs.Get attrs t with
  | .error e => .error e
  | .ok val =>
    if val.length ≠ 2 then .ok 0
    else .ok (read16 val 0)

/-- Go slice expression `data[lo:hi]` (callers establish `lo ≤ hi ≤ len`). -/
def slice (data : Bytes) (lo hi : Nat) : Bytes := (data.drop lo).take (hi - lo)

/-- Result of `TakeAttrs`: the map on success, the truncated-attribute
error (with the partially built map, as returned by the named returns),
or a Go runtime panic from the slice `data[valpos : pos+rta.Len]` when
`rta.Len < SizeofRtAttr` makes its bounds inverted. -/
inductive TakeAttrsResult where
  | ok (attrs : Attrs) (st : NlMsgButcher)
  | err (attrs : Attrs) (st : NlMsgButcher)
  | goPanic
deriving DecidableEq

/-- `n ≤ alignN n 4`. -/
theorem le_alignN_four (n : Nat) : n ≤ alignN n 4 := by
  rw [alignN_four]
  exact roundUp_ge n 4 (by norm_num)

/-- `alignN (n + 4) 4 ≤ alignN n 4 + 4` is not needed; but alignment of an
already aligned value is the identity. -/
theorem alignN_four_of_dvd (n : Nat) (h : 4 ∣ n) : alignN n 4 = n := by
  obtain ⟨q, hq⟩ := h
  subst hq
  rw [alignN_four, Nat.mul_add_div (by norm_num)]
  omega

/-- The loop body of `TakeAttrs`, recursing on the cursor. -/
def takeAttrsLoop (data : Bytes) (pos : Nat) (attrs : Attrs) : TakeAttrsResult :=
  let apos := alignN pos RTA_ALIGNTO
  if h1 : data.length ≤ apos then .ok attrs ⟨data, pos⟩
  else
    if h2 : data.length < apos + SizeofRtAttr then .err attrs ⟨data, apos⟩
    else
      let rtaLen := read16 data apos
      if h3 : data.length < apos + rtaLen then .err attrs ⟨data, apos⟩
      else
        let valpos := alignN (apos + SizeofRtAttr) RTA_ALIGNTO
        if h4 : valpos ≤ apos + rtaLen then
          takeAttrsLoop data (apos + rtaLen)
            (attrsInsert attrs (read16 data (apos + 2)) (slice data valpos (apos + rtaLen)))
        else .goPanic
termination_by data.length - pos
decreasing_by
  unfold_let apos rtaLen valpos at *
  simp only [RTA_ALIGNTO, SizeofRtAttr] at *
  have ha := le_alignN_four pos
  have hv := le_alignN_four (alignN pos 4 + 4)
  omega

/-- `(nlmsg *NlMsgButcher) TakeAttrs()`. -/
def NlMsgButcher.TakeAttrs (nlmsg : NlMsgButcher) : TakeAttrsResult :=
  takeAttrsLoop nlmsg.data nlmsg.pos []

/-- `NlMsgBuilder`: the outbound message buffer.  `expand` preserves
contents and zero-fills fresh capacity, so growth is modelled as
appending zero bytes. -/
structure NlMsgBuilder where
  buf : Bytes
deriving DecidableEq

/-- `NewNlMsgBuilder(flags uint16, typ uint16)`: a zeroed header-sized
buffer with `Flags` and `Type` stamped. -/
def NewNlMsgBuilder (flags typ : Nat) : NlMsgBuilder :=
  ⟨write16At (write16At (List.replicate NLMSG_HDRLEN 0) 4 typ) 6 flags⟩

/-- `(nlmsg *NlMsgBuilder) Align(a int)`: pad to the next multiple of `a`. -/
def NlMsgBuilder.Align (nlmsg : NlMsgBuilder) (a : Nat) : NlMsgBuilder :=
  ⟨nlmsg.buf ++ List.replicate (alignN nlmsg.buf.length a - nlmsg.buf.length) 0⟩

/-- `(nlmsg *NlMsgBuilder) Grow(size uintptr)`: extend by `size` zero
bytes and return the offset where the new region starts. -/
def NlMsgBuilder.Grow (nlmsg : NlMsgBuilder) (size : Nat) : NlMsgBuilder × Nat :=
  (⟨nlmsg.buf ++ List.replicate size 0⟩, nlmsg.buf.length)

/-- `copy(buf[pos:], src)` for `pos + src.length ≤ buf.length`. -/
def writeBytesAt : Bytes → Nat → Bytes → Bytes
  | b, _, [] => b
  | b, pos, c :: rest => writeBytesAt (b.set pos c) (pos + 1) rest

/-- `(nlmsg *NlMsgBuilder) addStringZ(str string)`. -/
def NlMsgBuilder.addStringZ (nlmsg : NlMsgBuilder) (str : Bytes) : NlMsgBuilder :=
  let g := nlmsg.Grow (str.length + 1)
  ⟨(writeBytesAt g.1.buf g.2 str).set (g.2 + str.length) 0⟩

/-- `(nlmsg *NlMsgBuilder) PutRtAttr(typ uint16, gen func())`; the `gen`
closure mutates the builder, so it is passed as a function on builders. -/
def NlMsgBuilder.PutRtAttr (nlmsg : NlMsgBuilder) (typ : Nat)
    (gen : NlMsgBuilder → NlMsgBuilder) : NlMsgBuilder :=
  let b1 := nlmsg.Align NLMSG_ALIGNTO
  let g := b1.Grow SizeofRtAttr
  let b3 := g.1.Align RTA_ALIGNTO
  let b4 := gen b3
  let b5 := write16At b4.buf (g.2 + 2) typ
  ⟨write16At b5 g.2 (b4.buf.length - g.2)⟩

/-- `(nlmsg *NlMsgBuilder) PutStringRtAttr(typ uint16, str string)`. -/
def NlMsgBuilder.PutStringRtAttr (nlmsg : NlMsgBuilder) (typ : Nat)
    (str : Bytes) : NlMsgBuilder :=
  nlmsg.PutRtAttr typ (fun b => b.addStringZ str)

/-- `(nlmsg *NlMsgBuilder) Finish()`: stamp `h.Len` and `h.Seq`; `seq` is
the value the atomic global counter hands out for this message. -/
def NlMsgBuilder.Finish (nlmsg : NlMsgBuilder) (seq : Nat) : Bytes × Nat :=
  let b1 := write32At nlmsg.buf 0 nlmsg.buf.length
  (write32At b1 8 seq, seq)

/-- C8: for all integers `n ≥ 0` and power-of-two `a`, `align n a` is the
smallest multiple of `a` that is `≥ n`; hence `align` is idempotent,
`align n a % a = 0`, and `align n a - n < a`. -/
theorem align_smallest_multiple (n : Int) (hn : 0 ≤ n) (a : Int)
    (ha : ∃ k : Nat, a = 2 ^ k) :
    align n a % a = 0 ∧ n ≤ align n a ∧
    (∀ m : Int, m % a = 0 → n ≤ m → align n a ≤ m) ∧
    align (align n a) a = align n a ∧
    align n a - n < a := by
  obtain ⟨k, hk⟩ := ha
  have hcast : a = ((2 ^ k : Nat) : Int) := by rw [hk]; push_cast; ring
  have hM : n = ((n.toNat : Nat) : Int) := (Int.toNat_of_nonneg hn).symm
  set M := n.toNat with hMdef
  set aN := 2 ^ k with haN
  have haNpos : 0 < aN := Nat.pos_pow_of_pos k (by norm_num)
  have hA : align n a = (((M + aN - 1) / aN * aN : Nat) : Int) := by
    rw [hM, hcast]; exact align_coe M k
  set A := (M + aN - 1) / aN * aN with hAdef
  refine ⟨?_, ?_, ?_, ?_, ?_⟩
  · rw [hA, hcast]
    have : A % aN = 0 := by rw [hAdef]; exact Nat.mul_mod_left _ _
    omega
  · rw [hA, hM]
    exact_mod_cast roundUp_ge M aN haNpos
  · intro m hmod hnm
    have hm0 : 0 ≤ m := le_trans hn hnm
    have hmc : m = ((m.toNat : Nat) : Int) := (Int.toNat_of_nonneg hm0).symm
    have hdvd : aN ∣ m.toNat := by
      have : a ∣ m := Int.dvd_of_emod_eq_zero hmod
      rw [hcast, hmc] at this
      exact_mod_cast this
    obtain ⟨p, hp⟩ := hdvd
    have hle : M ≤ aN * p := by rw [← hp]; omega
    have := roundUp_min M aN p haNpos hle
    rw [hA, hmc, hp]
    exact_mod_cast this
  · rw [hA, hcast, align_coe A k, ← haN]
    exact_mod_cast roundUp_mul ((M + aN - 1) / aN) aN haNpos
  · rw [hA, hcast, hM]
    have h1 := roundUp_sub_lt M aN haNpos
    have h2 := roundUp_ge M aN haNpos
    omega

/-- Concrete instance of C8 at `n = 5`, `a = 4` (and minimality at `m = 8`). -/
theorem align_smallest_multiple_witness :
    align 5 4 % 4 = 0 ∧ (5:Int) ≤ align 5 4 ∧ align 5 4 ≤ 8 ∧
    align (align 5 4) 4 = align 5 4 ∧ align 5 4 - 5 < 4 := by
  have h := align_smallest_multiple 5 (by decide) 4 ⟨2, by norm_num⟩
  exact ⟨h.1, h.2.1, h.2.2.1 8 (by decide) (by decide), h.2.2.2.1, h.2.2.2.2⟩

/-- C1: the claim requires a Multiple Messages failure whenever the header
length rounded up to message alignment is less than the buffer length.  The
buffer below satisfies that condition (align 16 4 = 16 < 24) and passes all
earlier checks with a non-error type, yet `checkResponse` succeeds: the
source compares `int(h.Len) > align(len(data), ...)`, which is unsatisfiable
once `h.Len ≤ len(data)` has been checked, so the branch is dead code. -/
theorem checkResponse_c1_failing :
    alignN (read32 [16,0,0,0, 1,0, 0,0, 1,0,0,0, 0,0,0,0, 9,9,9,9, 9,9,9,9] 0)
        NLMSG_ALIGNTO
      < ([16,0,0,0, 1,0, 0,0, 1,0,0,0, 0,0,0,0, 9,9,9,9, 9,9,9,9] : Bytes).length ∧
    checkResponse 0 [16,0,0,0, 1,0, 0,0, 1,0,0,0, 0,0,0,0, 9,9,9,9, 9,9,9,9] 1 =
      .ok () := by
  constructor
  · simp +decide [NLMSG_ALIGNTO, alignN_four, read32, read16, byteAt]
  · simp +decide [checkResponse, NLMSG_HDRLEN, NLMSG_ALIGNTO, NLMSG_ERROR,
      readNlMsghdr, read32, read16, byteAt, alignN_four]

/-- C1 (dead branch, in general): whenever the header-declared length fits in
the buffer — the only way past the Truncated Message check — the
multiple-messages comparison of the source is false, for every buffer. -/
theorem checkResponse_no_multiple (data : Bytes) (h : read32 data 0 ≤ data.length) :
    ¬ alignN data.length NLMSG_ALIGNTO < read32 data 0 := by
  have := le_alignN_four data.length
  simp only [NLMSG_ALIGNTO]
  omega

/-- Concrete instance of the dead-branch fact. -/
theorem checkResponse_no_multiple_witness :
    ¬ alignN ([16,0,0,0, 1,0, 0,0, 1,0,0,0, 0,0,0,0, 9,9,9,9, 9,9,9,9] : Bytes).length
        NLMSG_ALIGNTO
      < read32 [16,0,0,0, 1,0, 0,0, 1,0,0,0, 0,0,0,0, 9,9,9,9, 9,9,9,9] 0 :=
  checkResponse_no_multiple _ (by simp +decide [read32, read16, byteAt])

/-- C2: the claim requires `GetUint16` to fail on a wrong-length value; the
source instead executes `return 0, err` where `err` is the nil error left by
the successful `Get`, so a 1-byte attribute yields value 0 with SUCCESS. -/
theorem getUint16_c2_failing :
    attrsGet [(1, [5])] 1 = some [5] ∧ ([5] : Bytes).length ≠ 2 ∧
    Attrs.GetUint16 [(1, [5])] 1 = .ok 0 ∧
    Attrs.GetUint16 [] 1 = .error (.missingAttribute 1) := by
  refine ⟨by decide, by decide, ?_, ?_⟩ <;>
    simp +decide [Attrs.GetUint16, Attrs.Get, attrsGet]

/-- C3: the claim requires `TakeAttrs` to be total (map or Truncated
Attribute error) with no out-of-range slicing, in particular for declared
attribute lengths below the TLV prefix size.  On a single attribute record
declaring length 0, the source reaches `data[valpos : pos+rta.Len]` with
`valpos = 4 > 0`, a Go slice-bounds panic. -/
theorem takeAttrs_c3_failing :
    NlMsgButcher.TakeAttrs ⟨[0, 0, 1, 0], 0⟩ = .goPanic := by
  rw [NlMsgButcher.TakeAttrs, takeAttrsLoop]
  simp +decide [RTA_ALIGNTO, SizeofRtAttr, alignN_four, read16, byteAt]

/-- C4 counterexample: a butcher whose cursor is at 4 over a buffer whose
header-at-4 has type field 2; the claim ("reads the message header at the
current cursor position", failing exactly when that header's type mismatches)
predicts success for `expectedType = 2`, but the call fails: the source reads
the header at position 0 (type 1). -/
theorem takeNlMsghdr_c4_counterexample :
    (readNlMsghdr [0,0,0,0, 1,0, 0,0, 2,0, 0,0, 0,0,0,0, 0,0,0,0] 4).typ = 2 ∧
    NlMsgButcher.TakeNlMsghdr ⟨[0,0,0,0, 1,0, 0,0, 2,0, 0,0, 0,0,0,0, 0,0,0,0], 4⟩ 2 =
      .err ⟨[0,0,0,0, 1,0, 0,0, 2,0, 0,0, 0,0,0,0, 0,0,0,0], 20⟩ := by
  constructor
  · decide
  · simp +decide [NlMsgButcher.TakeNlMsghdr, NLMSG_HDRLEN, readNlMsghdr,
      read32, read16, byteAt]

/-- C4 amended: for every parser state over a buffer at least a header long,
`TakeNlMsghdr` reads the message header at buffer position 0 (regardless of
the cursor), advances the cursor by the header size, and fails with an
Unexpected Message Type error exactly when that header's type field differs
from the `expectedType` argument. -/
theorem takeNlMsghdr_spec (data : Bytes) (pos expectType : Nat)
    (hlen : NLMSG_HDRLEN ≤ data.length) :
    NlMsgButcher.TakeNlMsghdr ⟨data, pos⟩ expectType =
      if (readNlMsghdr data 0).typ = expectType
      then .ok (readNlMsghdr data 0) ⟨data, pos + NLMSG_HDRLEN⟩
      else .err ⟨data, pos + NLMSG_HDRLEN⟩ := by
  rw [NlMsgButcher.TakeNlMsghdr]
  by_cases h : (readNlMsghdr data 0).typ = expectType <;> simp [h]

/-- Concrete instance of the amended C4. -/
theorem takeNlMsghdr_spec_witness :
    NLMSG_HDRLEN ≤ ([20,0,0,0, 3,0, 0,0, 0,0,0,0, 0,0,0,0, 1,2,3,4] : Bytes).length ∧
    NlMsgButcher.TakeNlMsghdr ⟨[20,0,0,0, 3,0, 0,0, 0,0,0,0, 0,0,0,0, 1,2,3,4], 0⟩ 3 =
      .ok (readNlMsghdr [20,0,0,0, 3,0, 0,0, 0,0,0,0, 0,0,0,0, 1,2,3,4] 0)
        ⟨[20,0,0,0, 3,0, 0,0, 0,0,0,0, 0,0,0,0, 1,2,3,4], 0 + NLMSG_HDRLEN⟩ := by
  refine ⟨by decide, ?_⟩
  rw [takeNlMsghdr_spec _ _ _ (by decide)]
  simp +decide [readNlMsghdr, read32, read16, byteAt]

/-- C10: `Advance` is atomic on failure — if advancing by `n` would move the
cursor past the end of the data, it returns a Truncated Payload error and
the parser state is exactly as before the call; otherwise it advances the
cursor by exactly `n`. -/
theorem advance_atomic (st : NlMsgButcher) (n : Nat) :
    (st.data.length < st.pos + n → st.Advance n = .err st) ∧
    (st.pos + n ≤ st.data.length → st.Advance n = .ok ⟨st.data, st.pos + n⟩) := by
  constructor <;> intro h <;> simp [NlMsgButcher.Advance, h]

/-- Concrete instances of C10: a failing advance (cursor untouched) and a
successful one. -/
theorem advance_atomic_witness :
    NlMsgButcher.Advance ⟨[1, 2, 3], 2⟩ 2 = .err ⟨[1, 2, 3], 2⟩ ∧
    NlMsgButcher.Advance ⟨[1, 2, 3], 2⟩ 1 = .ok ⟨[1, 2, 3], 3⟩ :=
  ⟨(advance_atomic ⟨[1, 2, 3], 2⟩ 2).1 (by decide),
   (advance_atomic ⟨[1, 2, 3], 2⟩ 1).2 (by decide)⟩

/-- Bytes of a Go `[]byte` are below 256, also when read through the
out-of-range default. -/
theorem byteAt_lt (data : Bytes) (hb : ∀ b ∈ data, b < 256) (pos : Nat) :
    byteAt data pos < 256 := by
  unfold byteAt
  rcases h : data.get? pos with _ | b
  · simp [List.getD_eq_getElem?_getD, ← List.get?_eq_getElem?, h]
  · have hm : b ∈ data := List.get?_mem h
    have : data.getD pos 0 = b := by
      simp [List.getD_eq_getElem?_getD, ← List.get?_eq_getElem?, h]
    rw [this]
    exact hb b hm

/-- The signed 32-bit read stays in the `int32` range on byte-valid data. -/
theorem readInt32_bounds (data : Bytes) (hb : ∀ b ∈ data, b < 256) (pos : Nat) :
    -(2 ^ 31) ≤ readInt32 data pos ∧ readInt32 data pos < 2 ^ 31 := by
  have b0 := byteAt_lt data hb pos
  have b1 := byteAt_lt data hb (pos + 1)
  have b2 := byteAt_lt data hb (pos + 2)
  have b3 := byteAt_lt data hb (pos + 2 + 1)
  simp only [readInt32, read32, read16]
  split <;> omega

/-- C6: on a received buffer (of bytes) that passes the length, peer and
sequence checks, whose type is the reserved error type and whose declared
length covers the embedded `NlMsgerr` code: code 0 yields success with no
error, and a non-zero code yields a Netlink Error carrying the negated code
(`negInt32`, the `int32` negation the source performs; it equals plain
negation everywhere except at the unreachable-in-practice `-2^31`). -/
theorem checkResponse_error_type (sockPid expectedSeq : Nat) (data : Bytes)
    (hb : ∀ b ∈ data, b < 256)
    (hfit : (readNlMsghdr data 0).len ≤ data.length)
    (hmin : 20 ≤ (readNlMsghdr data 0).len)
    (hpid : (readNlMsghdr data 0).pid = sockPid)
    (hseq : (readNlMsghdr data 0).seq = expectedSeq)
    (htyp : (readNlMsghdr data 0).typ = NLMSG_ERROR) :
    (readInt32 data NLMSG_HDRLEN = 0 →
      checkResponse sockPid data expectedSeq = .ok ()) ∧
    (readInt32 data NLMSG_HDRLEN ≠ 0 →
      checkResponse sockPid data expectedSeq =
        .error (.netlinkError (negInt32 (readInt32 data NLMSG_HDRLEN)))) ∧
    (readInt32 data NLMSG_HDRLEN ≠ -(2 ^ 31) →
      negInt32 (readInt32 data NLMSG_HDRLEN) = -(readInt32 data NLMSG_HDRLEN)) := by
  have h1 : ¬ data.length < NLMSG_HDRLEN := by simp only [NLMSG_HDRLEN]; omega
  have h2 : ¬ data.length < (readNlMsghdr data 0).len := by omega
  have h3 : ¬ (readNlMsghdr data 0).len < NLMSG_HDRLEN := by
    simp only [NLMSG_HDRLEN]; omega
  have h4 : (readNlMsghdr data 0).len ≠ NLMSG_HDRLEN := by
    simp only [NLMSG_HDRLEN]; omega
  refine ⟨?_, ?_, ?_⟩
  · intro hc
    simp [checkResponse, h1, h2, hpid, hseq, h3, htyp, h4, hc]
  · intro hc
    simp [checkResponse, h1, h2, hpid, hseq, h3, htyp, h4, hc]
  · intro hc
    have hbd := readInt32_bounds data hb NLMSG_HDRLEN
    unfold negInt32
    omega

/-- Concrete instances of C6: a 20-byte error-type response with code 0
validates as success; with code -2 it validates as errno 2. -/
theorem checkResponse_error_type_witness :
    checkResponse 0 [20,0,0,0, 2,0, 0,0, 1,0,0,0, 0,0,0,0, 0,0,0,0] 1 = .ok () ∧
    checkResponse 0 [20,0,0,0, 2,0, 0,0, 1,0,0,0, 0,0,0,0, 254,255,255,255] 1 =
      .error (.netlinkError 2) := by
  constructor
  · exact (checkResponse_error_type 0 1 _ (by decide) (by decide) (by decide)
      (by decide) (by decide) (by decide)).1 (by decide)
  · have h := (checkResponse_error_type 0 1
      [20,0,0,0, 2,0, 0,0, 1,0,0,0, 0,0,0,0, 254,255,255,255] (by decide)
      (by decide) (by decide) (by decide) (by decide) (by decide)).2.1 (by decide)
    rw [h]
    simp +decide [negInt32, readInt32, read32, read16, byteAt, NLMSG_HDRLEN]

/-- C7: `checkResponse` performs its checks in order, short-circuiting at
the first violation: short buffer → Truncated Header; declared length
exceeding the buffer → Truncated Message (before any peer or sequence
check); wrong port id → Peer Mismatch; then wrong sequence number →
Sequence Mismatch even when everything else is well-formed. -/
theorem checkResponse_ordered (sockPid expectedSeq : Nat) (data : Bytes) :
    (data.length < NLMSG_HDRLEN →
      checkResponse sockPid data expectedSeq = .error .truncatedHeader) ∧
    (NLMSG_HDRLEN ≤ data.length → data.length < (readNlMsghdr data 0).len →
      checkResponse sockPid data expectedSeq = .error .truncatedMessage) ∧
    (NLMSG_HDRLEN ≤ data.length → (readNlMsghdr data 0).len ≤ data.length →
      (readNlMsghdr data 0).pid ≠ sockPid →
      checkResponse sockPid data expectedSeq = .error .pidMismatch) ∧
    (NLMSG_HDRLEN ≤ data.length → (readNlMsghdr data 0).len ≤ data.length →
      (readNlMsghdr data 0).pid = sockPid →
      (readNlMsghdr data 0).seq ≠ expectedSeq →
      checkResponse sockPid data expectedSeq = .error .seqMismatch) := by
  refine ⟨?_, ?_, ?_, ?_⟩
  · intro hc
    simp [checkResponse, hc]
  · intro hl hc
    simp [checkResponse, Nat.not_lt.mpr hl, hc]
  · intro hl hfit hc
    simp [checkResponse, Nat.not_lt.mpr hl, Nat.not_lt.mpr hfit, hc]
  · intro hl hfit hpid hc
    simp [checkResponse, Nat.not_lt.mpr hl, Nat.not_lt.mpr hfit, hpid, hc]

/-- Concrete instances of C7, one per check (the last with a sequence
number one less than expected and every other field well-formed). -/
theorem checkResponse_ordered_witness :
    checkResponse 0 [1, 2, 3] 5 = .error .truncatedHeader ∧
    checkResponse 0 [17,0,0,0, 1,0, 0,0, 5,0,0,0, 0,0,0,0] 5 =
      .error .truncatedMessage ∧
    checkResponse 0 [16,0,0,0, 1,0, 0,0, 5,0,0,0, 7,0,0,0] 5 =
      .error .pidMismatch ∧
    checkResponse 0 [16,0,0,0, 1,0, 0,0, 4,0,0,0, 0,0,0,0] 5 =
      .error .seqMismatch :=
  ⟨(checkResponse_ordered 0 5 _).1 (by decide),
   (checkResponse_ordered 0 5 _).2.1 (by decide) (by decide),
   (checkResponse_ordered 0 5 _).2.2.1 (by decide) (by decide) (by decide),
   (checkResponse_ordered 0 5 _).2.2.2 (by decide) (by decide) (by decide)
     (by decide)⟩

/-- `Align` on the builder, with the rounding in plain division form. -/
theorem builder_align_msg (b : NlMsgBuilder) :
    b.Align NLMSG_ALIGNTO =
      ⟨b.buf ++ List.replicate ((b.buf.length + 3) / 4 * 4 - b.buf.length) 0⟩ := by
  simp [NlMsgBuilder.Align, NLMSG_ALIGNTO, alignN_four]

/-- `Align` at the attribute alignment, same rounding. -/
theorem builder_align_rta (b : NlMsgBuilder) :
    b.Align RTA_ALIGNTO =
      ⟨b.buf ++ List.replicate ((b.buf.length + 3) / 4 * 4 - b.buf.length) 0⟩ := by
  simp [NlMsgBuilder.Align, RTA_ALIGNTO, alignN_four]

/-- The attribute loop stops (successfully) when the aligned cursor reaches
the end of data, leaving the cursor where it was. -/
theorem takeAttrsLoop_done (data : Bytes) (pos : Nat) (attrs : Attrs)
    (h : data.length ≤ alignN pos RTA_ALIGNTO) :
    takeAttrsLoop data pos attrs = .ok attrs ⟨data, pos⟩ := by
  rw [takeAttrsLoop]
  simp [h]

/-- One successful iteration of the attribute loop at an aligned cursor:
the record's value bytes are stored under its type and the cursor advances
by the declared length. -/
theorem takeAttrsLoop_step (data : Bytes) (pos : Nat) (attrs : Attrs)
    (hdvd : 4 ∣ pos)
    (h1 : pos < data.length)
    (h2 : pos + SizeofRtAttr ≤ data.length)
    (hlen4 : 4 ≤ read16 data pos)
    (h3 : pos + read16 data pos ≤ data.length) :
    takeAttrsLoop data pos attrs =
      takeAttrsLoop data (pos + read16 data pos)
        (attrsInsert attrs (read16 data (pos + 2))
          (slice data (pos + 4) (pos + read16 data pos))) := by
  have hap : alignN pos RTA_ALIGNTO = pos := by
    simp only [RTA_ALIGNTO]
    exact alignN_four_of_dvd pos hdvd
  have hvp : alignN (pos + 4) RTA_ALIGNTO = pos + 4 := by
    simp only [RTA_ALIGNTO]
    exact alignN_four_of_dvd (pos + 4) (by omega)
  rw [takeAttrsLoop]
  simp only [SizeofRtAttr, hap, hvp]
  rw [dif_neg (by omega), dif_neg (by omega), dif_neg (by omega),
    dif_pos (by omega)]

/-- C5: building a message with flags `F`, type `T` and one string
attribute of type `A` with value "eth0", then finishing, yields a buffer
whose header `Len` equals the buffer's byte length, whose `Type` is `T` and
`Flags` are `F`; parsing the buffer's header and then its attributes yields
a map binding `A` to the 5 bytes "eth0" plus NUL terminator. -/
theorem build_parse_roundtrip (F T A seq : Nat)
    (hF : F < 65536) (hT : T < 65536) (hA : A < 65536)
    (hseq : seq < 4294967296) :
    ∀ buf, buf = (((NewNlMsgBuilder F T).PutStringRtAttr A
        [101,116,104,48]).Finish seq).1 →
    buf.length = 25 ∧
    (readNlMsghdr buf 0).len = buf.length ∧
    (readNlMsghdr buf 0).typ = T ∧
    (readNlMsghdr buf 0).flags = F ∧
    ∃ st1 attrs st2,
      NlMsgButcher.TakeNlMsghdr (NewNlMsgButcher buf) T =
        .ok (readNlMsghdr buf 0) st1 ∧
      NlMsgButcher.TakeAttrs st1 = .ok attrs st2 ∧
      attrsGet attrs A = some [101, 116, 104, 48, 0] := by
  intro buf hb
  have h0 : NewNlMsgBuilder F T =
      ⟨[0,0,0,0, T%256, T/256%256, F%256, F/256%256, 0,0,0,0, 0,0,0,0]⟩ := by
    simp [NewNlMsgBuilder, NLMSG_HDRLEN, write16At, List.replicate, List.set]
  have hAl : (⟨[0,0,0,0, T%256, T/256%256, F%256, F/256%256, 0,0,0,0, 0,0,0,0]⟩ :
      NlMsgBuilder).Align NLMSG_ALIGNTO =
      ⟨[0,0,0,0, T%256, T/256%256, F%256, F/256%256, 0,0,0,0, 0,0,0,0]⟩ := by
    rw [builder_align_msg]
    norm_num
  have hG : (⟨[0,0,0,0, T%256, T/256%256, F%256, F/256%256, 0,0,0,0, 0,0,0,0]⟩ :
      NlMsgBuilder).Grow SizeofRtAttr =
      (⟨[0,0,0,0, T%256, T/256%256, F%256, F/256%256, 0,0,0,0, 0,0,0,0,
        0,0,0,0]⟩, 16) := by
    simp [NlMsgBuilder.Grow, SizeofRtAttr, List.replicate]
  have hAl2 : (⟨[0,0,0,0, T%256, T/256%256, F%256, F/256%256, 0,0,0,0, 0,0,0,0,
      0,0,0,0]⟩ : NlMsgBuilder).Align RTA_ALIGNTO =
      ⟨[0,0,0,0, T%256, T/256%256, F%256, F/256%256, 0,0,0,0, 0,0,0,0,
        0,0,0,0]⟩ := by
    rw [builder_align_rta]
    norm_num
  have hS : (⟨[0,0,0,0, T%256, T/256%256, F%256, F/256%256, 0,0,0,0, 0,0,0,0,
      0,0,0,0]⟩ : NlMsgBuilder).addStringZ [101,116,104,48] =
      ⟨[0,0,0,0, T%256, T/256%256, F%256, F/256%256, 0,0,0,0, 0,0,0,0,
        0,0,0,0, 101,116,104,48,0]⟩ := by
    simp [NlMsgBuilder.addStringZ, NlMsgBuilder.Grow, List.replicate,
      writeBytesAt, List.set]
  have h1 : (NewNlMsgBuilder F T).PutStringRtAttr A [101,116,104,48] =
      ⟨[0,0,0,0, T%256, T/256%256, F%256, F/256%256, 0,0,0,0, 0,0,0,0,
        9,0, A%256, A/256%256, 101,116,104,48,0]⟩ := by
    rw [NlMsgBuilder.PutStringRtAttr, NlMsgBuilder.PutRtAttr, h0]
    rw [hAl, hG]
    rw [hAl2, hS]
    simp [write16At, List.set]
  have hbuf : buf = [25,0,0,0, T%256, T/256%256, F%256, F/256%256,
      seq%256, seq/256%256, seq/65536%256, seq/16777216%256,
      0,0,0,0, 9,0, A%256, A/256%256, 101,116,104,48,0] := by
    rw [hb, NlMsgBuilder.Finish, h1]
    simp [write32At, List.set]
  have hlen25 : buf.length = 25 := by rw [hbuf]; rfl
  have hhdr : readNlMsghdr buf 0 = ⟨25, T, F, seq, 0⟩ := by
    rw [hbuf]
    simp only [readNlMsghdr, read32, read16, byteAt, NlMsghdr.mk.injEq]
    norm_num [List.getD]
    omega
  have h16 : read16 buf 16 = 9 := by
    rw [hbuf]
    norm_num [read16, byteAt, List.getD]
  have h18 : read16 buf 18 = A := by
    rw [hbuf]
    simp only [read16, byteAt]
    norm_num [List.getD]
    omega
  have hsl : slice buf 20 25 = [101, 116, 104, 48, 0] := by
    rw [hbuf]; rfl
  refine ⟨hlen25, by rw [hhdr, hlen25], by rw [hhdr], by rw [hhdr],
    ⟨buf, 16⟩, [(A, [101, 116, 104, 48, 0])], ⟨buf, 25⟩, ?_, ?_, ?_⟩
  · rw [NewNlMsgButcher, NlMsgButcher.TakeNlMsghdr]
    simp [hhdr, NLMSG_HDRLEN]
  · rw [NlMsgButcher.TakeAttrs]
    rw [takeAttrsLoop_step buf 16 [] (by norm_num) (by rw [hlen25]; decide)
      (by rw [hlen25]; decide) (by rw [h16]; norm_num)
      (by rw [h16, hlen25])]
    rw [h16, h18, hsl]
    rw [takeAttrsLoop_done _ _ _ (by rw [hlen25]; simp [RTA_ALIGNTO, alignN_four])]
    norm_num [attrsInsert]
  · simp [attrsGet]

/-- Concrete instance of C5 at `F = 5`, `T = 20`, `A = 3`, `seq = 7`. -/
theorem build_parse_roundtrip_witness :
    (((NewNlMsgBuilder 5 20).PutStringRtAttr 3
        [101,116,104,48]).Finish 7).1.length = 25 ∧
    (readNlMsghdr (((NewNlMsgBuilder 5 20).PutStringRtAttr 3
        [101,116,104,48]).Finish 7).1 0).len =
      (((NewNlMsgBuilder 5 20).PutStringRtAttr 3
        [101,116,104,48]).Finish 7).1.length ∧
    (readNlMsghdr (((NewNlMsgBuilder 5 20).PutStringRtAttr 3
        [101,116,104,48]).Finish 7).1 0).typ = 20 ∧
    (readNlMsghdr (((NewNlMsgBuilder 5 20).PutStringRtAttr 3
        [101,116,104,48]).Finish 7).1 0).flags = 5 ∧
    ∃ st1 attrs st2,
      NlMsgButcher.TakeNlMsghdr (NewNlMsgButcher
          (((NewNlMsgBuilder 5 20).PutStringRtAttr 3
            [101,116,104,48]).Finish 7).1) 20 =
        .ok (readNlMsghdr (((NewNlMsgBuilder 5 20).PutStringRtAttr 3
          [101,116,104,48]).Finish 7).1 0) st1 ∧
      NlMsgButcher.TakeAttrs st1 = .ok attrs st2 ∧
      attrsGet attrs 3 = some [101, 116, 104, 48, 0] :=
  build_parse_roundtrip 5 20 3 7 (by decide) (by decide) (by decide)
    (by decide) _ rfl

/-- A well-formed wire TLV record of the netlink attribute stream (spec
section 3): 16-bit length including the 4-byte prefix, 16-bit type, value
bytes, zero padding up to attribute alignment. -/
def mkAttr (t : Nat) (v : Bytes) : Bytes :=
  [(4 + v.length) % 256, (4 + v.length) / 256 % 256, t % 256, t / 256 % 256]
    ++ v ++ List.replicate ((4 + v.length + 3) / 4 * 4 - (4 + v.length)) 0

/-- A top-level stream of well-formed TLV records. -/
def encodeAttrs : List (Nat × Bytes) → Bytes
  | [] => []
  | (t, v) :: rest => mkAttr t v ++ encodeAttrs rest

/-- Length of one padded record. -/
theorem mkAttr_length (t : Nat) (v : Bytes) :
    (mkAttr t v).length = (4 + v.length + 3) / 4 * 4 := by
  have h := roundUp_ge (4 + v.length) 4 (by norm_num)
  simp [mkAttr]
  omega

/-- A padded record length is a multiple of the attribute alignment. -/
theorem mkAttr_length_dvd (t : Nat) (v : Bytes) : 4 ∣ (mkAttr t v).length := by
  rw [mkAttr_length]
  exact ⟨(4 + v.length + 3) / 4, by ring⟩

/-- A record is at least as long as its declared (unpadded) length. -/
theorem mkAttr_length_ge (t : Nat) (v : Bytes) :
    4 + v.length ≤ (mkAttr t v).length := by
  rw [mkAttr_length]
  exact roundUp_ge (4 + v.length) 4 (by norm_num)

/-- A 16-bit read past an irrelevant head. -/
theorem read16_at_append (pre tail : Bytes) (i : Nat) :
    read16 (pre ++ tail) (pre.length + i) = read16 tail i := by
  unfold read16 byteAt
  rw [List.getD_append_right _ _ _ _ (by omega),
    List.getD_append_right _ _ _ _ (by omega)]
  have e1 : pre.length + i - pre.length = i := by omega
  have e2 : pre.length + i + 1 - pre.length = i + 1 := by omega
  rw [e1, e2]

/-- A slice of the middle component of an append. -/
theorem slice_append (xs v tail : Bytes) :
    slice (xs ++ (v ++ tail)) xs.length (xs.length + v.length) = v := by
  unfold slice
  have e : xs.length + v.length - xs.length = v.length := by omega
  rw [e, List.drop_left, List.take_left]

/-- `alignN` distributes over an aligned left summand. -/
theorem alignN_add_of_dvd (a b : Nat) (h : 4 ∣ a) :
    alignN (a + b) 4 = a + alignN b 4 := by
  obtain ⟨k, hk⟩ := h
  subst hk
  rw [alignN_four, alignN_four]
  have e : 4 * k + b + 3 = 4 * k + (b + 3) := by omega
  rw [e, Nat.mul_add_div (by norm_num)]
  ring

/-- One loop iteration at an unaligned cursor whose alignment is `apos`. -/
theorem takeAttrsLoop_step' (data : Bytes) (pos apos : Nat) (attrs : Attrs)
    (hap : alignN pos RTA_ALIGNTO = apos)
    (hdvd : 4 ∣ apos)
    (h1 : apos < data.length)
    (h2 : apos + 4 ≤ data.length)
    (hlen4 : 4 ≤ read16 data apos)
    (h3 : apos + read16 data apos ≤ data.length) :
    takeAttrsLoop data pos attrs =
      takeAttrsLoop data (apos + read16 data apos)
        (attrsInsert attrs (read16 data (apos + 2))
          (slice data (apos + 4) (apos + read16 data apos))) := by
  have hvp : alignN (apos + 4) RTA_ALIGNTO = apos + 4 := by
    simp only [RTA_ALIGNTO]
    exact alignN_four_of_dvd (apos + 4) (by omega)
  rw [takeAttrsLoop]
  simp only [SizeofRtAttr, hap, hvp]
  rw [dif_neg (by omega), dif_neg (by omega), dif_neg (by omega),
    dif_pos (by omega)]

/-- Parsing a stream of well-formed records appended after an already
consumed aligned region accumulates exactly the records, in order, on top
of the attributes accumulated so far. -/
theorem takeAttrsLoop_encode (rs : List (Nat × Bytes)) :
    ∀ (pre : Bytes) (pos : Nat) (attrs : Attrs),
      4 ∣ pre.length → alignN pos RTA_ALIGNTO = pre.length →
      (∀ r ∈ rs, r.1 < 65536 ∧ 4 + r.2.length < 65536) →
      ∃ st, takeAttrsLoop (pre ++ encodeAttrs rs) pos attrs =
        .ok (rs.reverse ++ attrs) st := by
  induction rs with
  | nil =>
    intro pre pos attrs hdvd hap _
    refine ⟨⟨pre ++ encodeAttrs [], pos⟩, ?_⟩
    rw [takeAttrsLoop_done _ _ _ (by simp [encodeAttrs, hap])]
    simp
  | cons r rest ih =>
    obtain ⟨t, v⟩ := r
    intro pre pos attrs hdvd hap hrs
    have hts : t < 65536 := (hrs (t, v) (by simp)).1
    have hvs : 4 + v.length < 65536 := (hrs (t, v) (by simp)).2
    have hrest : ∀ r ∈ rest, r.1 < 65536 ∧ 4 + r.2.length < 65536 := by
      intro r hr
      exact hrs r (by simp [hr])
    -- the buffer, re-associated around the first record
    have hdata : pre ++ encodeAttrs ((t, v) :: rest) =
        (pre ++ mkAttr t v) ++ encodeAttrs rest := by
      simp [encodeAttrs]
    have hmkge := mkAttr_length_ge t v
    have hmk := mkAttr_length t v
    have hlen : (pre ++ (mkAttr t v ++ encodeAttrs rest)).length =
        pre.length + ((mkAttr t v).length + (encodeAttrs rest).length) := by
      simp
    -- the 16-bit length and type fields of the first record
    have hshape : (mkAttr t v : Bytes) ++ encodeAttrs rest =
        ((4 + v.length) % 256) :: ((4 + v.length) / 256 % 256) ::
          (t % 256) :: (t / 256 % 256) ::
          (v ++ (List.replicate ((4 + v.length + 3) / 4 * 4 - (4 + v.length)) 0
            ++ encodeAttrs rest)) := by
      simp [mkAttr]
    have hr0 : read16 (pre ++ (mkAttr t v ++ encodeAttrs rest)) pre.length =
        4 + v.length := by
      have h := read16_at_append pre (mkAttr t v ++ encodeAttrs rest) 0
      rw [Nat.add_zero] at h
      rw [h, hshape]
      simp [read16, byteAt]
      omega
    have hr2 : read16 (pre ++ (mkAttr t v ++ encodeAttrs rest)) (pre.length + 2) =
        t := by
      rw [read16_at_append, hshape]
      simp [read16, byteAt]
      omega
    have hdata2 : pre ++ encodeAttrs ((t, v) :: rest) =
        pre ++ (mkAttr t v ++ encodeAttrs rest) := by
      simp [encodeAttrs]
    -- the value slice of the first record
    have hsl : slice (pre ++ (mkAttr t v ++ encodeAttrs rest))
        (pre.length + 4) (pre.length + 4 + v.length) = v := by
      have hx : pre ++ (mkAttr t v ++ encodeAttrs rest) =
          (pre ++ [(4 + v.length) % 256, (4 + v.length) / 256 % 256,
            t % 256, t / 256 % 256]) ++
          (v ++ (List.replicate ((4 + v.length + 3) / 4 * 4 - (4 + v.length)) 0
            ++ encodeAttrs rest)) := by
        simp [mkAttr]
      have hxl : (pre ++ [(4 + v.length) % 256, (4 + v.length) / 256 % 256,
          t % 256, t / 256 % 256]).length = pre.length + 4 := by
        simp
      have h := slice_append (pre ++ [(4 + v.length) % 256,
        (4 + v.length) / 256 % 256, t % 256, t / 256 % 256]) v
        (List.replicate ((4 + v.length + 3) / 4 * 4 - (4 + v.length)) 0
          ++ encodeAttrs rest)
      rw [hxl] at h
      rw [hx]
      exact h
    rw [hdata2]
    rw [takeAttrsLoop_step' _ pos pre.length attrs hap hdvd
      (by simp [hlen] at *; omega) (by simp [hlen] at *; omega)
      (by rw [hr0]; omega) (by rw [hr0]; simp [hlen] at *; omega)]
    rw [hr0, hr2]
    have hadv : pre.length + (4 + v.length) = pre.length + 4 + v.length := by omega
    rw [hadv, hsl]
    -- recurse with the first record folded into the consumed region
    have hpre' : 4 ∣ (pre ++ mkAttr t v).length := by
      simp only [List.length_append]
      exact Nat.dvd_add hdvd (mkAttr_length_dvd t v)
    have hap' : alignN (pre.length + 4 + v.length) RTA_ALIGNTO =
        (pre ++ mkAttr t v).length := by
      simp only [RTA_ALIGNTO, List.length_append]
      have e : pre.length + 4 + v.length = pre.length + (4 + v.length) := by omega
      rw [e, alignN_add_of_dvd _ _ hdvd, alignN_four, hmk]
    obtain ⟨st, hst⟩ := ih (pre ++ mkAttr t v) (pre.length + 4 + v.length)
      (attrsInsert attrs t v) hpre' hap' hrest
    rw [List.append_assoc] at hst
    refine ⟨st, ?_⟩
    rw [hst]
    simp [attrsInsert]

/-- C9: on a buffer holding a stream of well-formed top-level TLV records
in which two records share the same type code, `TakeAttrs` succeeds (no
error, no deduplication) and the map binds that type code to the
later-positioned record's value bytes. -/
theorem takeAttrs_last_write_wins (rs1 rs2 : List (Nat × Bytes)) (t : Nat)
    (v1 v2 : Bytes)
    (h1 : ∀ r ∈ rs1, r.1 < 65536 ∧ 4 + r.2.length < 65536)
    (h2 : ∀ r ∈ rs2, r.1 < 65536 ∧ 4 + r.2.length < 65536)
    (ht : t < 65536) (hv1 : 4 + v1.length < 65536)
    (hv2 : 4 + v2.length < 65536) :
    ∃ st, NlMsgButcher.TakeAttrs
        (NewNlMsgButcher (encodeAttrs (rs1 ++ (t, v1) :: rs2 ++ [(t, v2)]))) =
        .ok ((rs1 ++ (t, v1) :: rs2 ++ [(t, v2)]).reverse) st ∧
      attrsGet ((rs1 ++ (t, v1) :: rs2 ++ [(t, v2)]).reverse) t = some v2 := by
  have hall : ∀ r ∈ rs1 ++ (t, v1) :: rs2 ++ [(t, v2)],
      r.1 < 65536 ∧ 4 + r.2.length < 65536 := by
    intro r hr
    rcases List.mem_append.mp hr with h | h
    · rcases List.mem_append.mp h with h' | h'
      · exact h1 r h'
      · rcases List.mem_cons.mp h' with rfl | h''
        · exact ⟨ht, hv1⟩
        · exact h2 r h''
    · rcases List.mem_cons.mp h with rfl | h'
      · exact ⟨ht, hv2⟩
      · simp at h'
  obtain ⟨st, hst⟩ := takeAttrsLoop_encode (rs1 ++ (t, v1) :: rs2 ++ [(t, v2)])
    [] 0 [] (by simp) (by simp [RTA_ALIGNTO, alignN_four]) hall
  rw [List.nil_append, List.append_nil] at hst
  refine ⟨st, ?_, ?_⟩
  · rw [NewNlMsgButcher, NlMsgButcher.TakeAttrs]
    exact hst
  · have hrev : (rs1 ++ (t, v1) :: rs2 ++ [(t, v2)]).reverse =
        (t, v2) :: (rs2.reverse ++ (t, v1) :: rs1.reverse) := by
      simp
    rw [hrev]
    simp [attrsGet]

/-- Concrete instance of C9: records (1,[7]) then (1,[8,9]); the map holds
the later value [8,9]. -/
theorem takeAttrs_last_write_wins_witness :
    ∃ st, NlMsgButcher.TakeAttrs
        (NewNlMsgButcher (encodeAttrs ([] ++ (1, [7]) :: [] ++ [(1, [8, 9])]))) =
        .ok (([] ++ (1, [7]) :: [] ++ [(1, [8, 9])]).reverse) st ∧
      attrsGet (([] ++ (1, [7]) :: [] ++ [(1, [8, 9])]).reverse) 1 =
        some [8, 9] :=
  takeAttrs_last_write_wins [] [] 1 [7] [8, 9] (by simp) (by simp)
    (by decide) (by decide) (by decide)

end Netlink
